import Mathlib

/-!
Verification of `scripts/market_monitor.py` (SHTCRPT repository).

The development shallowly embeds the monitor's core: the `MarketSnapshot`
data model, the indicator computation performed in `fetch_rsi_macd`
(RSI(14) with Wilder smoothing and the MACD(12,26,9) histogram, as computed
by the `ta` library over a pandas series), the `gather_data` aggregator,
the pure decision function `evaluate`, and one iteration of the `main`
monitor loop.

Python floats that can actually be NaN at the points the monitor reads
them (the two pandas-derived indicator cells `snapshot.rsi` and
`snapshot.macd`) are embedded as `PFloat`, a rational extended with a NaN
element whose comparisons are always false, mirroring IEEE semantics of
`<`/`>` against NaN.  All other numeric fields come from `float(...)` /
`int(...)` over JSON payloads and are embedded as plain rationals or
integers.  Consecutive `time.time()` reads inside a single loop iteration
are modelled as one instant `now`.
-/

/-- A Python float as read by the decision rule: either NaN (every ordered
comparison evaluates to false) or an actual numeric value, embedded as a
rational. -/
inductive PFloat where
  | nan : PFloat
  | val : ℚ → PFloat
deriving DecidableEq

/-- `x > c` on a possibly-NaN float: false for NaN. -/
def PFloat.gtB : PFloat → ℚ → Bool
  | PFloat.nan, _ => false
  | PFloat.val q, c => decide (c < q)

/-- `x < c` on a possibly-NaN float: false for NaN. -/
def PFloat.ltB : PFloat → ℚ → Bool
  | PFloat.nan, _ => false
  | PFloat.val q, c => decide (q < c)

/-- A pandas cell that is NaN exactly when the `Option` is `none`. -/
def PFloat.ofOption : Option ℚ → PFloat
  | none => PFloat.nan
  | some q => PFloat.val q

/-- One entry of the ForexFactory calendar JSON (`list[dict]` in the
source); the dict payload is embedded as an association list. -/
abbrev MacroEvent := List (String × String)

/-- The `MarketSnapshot` class: one field per data point, each defaulted
to a neutral zero exactly as in `MarketSnapshot.__init__`. -/
structure MarketSnapshot where
  eth_price : ℚ := 0
  market_cap : ℚ := 0
  volume : ℚ := 0
  rsi : PFloat := PFloat.val 0
  macd : PFloat := PFloat.val 0
  funding_rate : ℚ := 0
  open_interest : ℚ := 0
  btc_dominance : ℚ := 0
  fear_greed : ℤ := 0
  macro_events : List MacroEvent := []
deriving DecidableEq

/-- A freshly constructed snapshot (`MarketSnapshot()`). -/
def MarketSnapshot.init : MarketSnapshot := {}

/-! ## Indicator calculator

`fetch_rsi_macd` feeds the closing prices into `ta.momentum.RSIIndicator`
(window 14) and `ta.trend.MACD` (12/26/9), both with `fillna=False`, and
stores the last cell of each resulting series.  Both indicators are
exponentially-weighted means (`ewm(..., adjust=False)`), i.e. the
recurrence `y0 = x0`, `y_t = (1-alpha) * y_(t-1) + alpha * x_t`, with
`min_periods` masking the leading cells as NaN. -/

/-- One step of the `ewm(adjust=False)` recurrence. -/
def ewmaStep (alpha acc x : ℚ) : ℚ := (1 - alpha) * acc + alpha * x

/-- The last cell of `xs.ewm(alpha=alpha, adjust=False).mean()` (0 for an
empty series; only used on nonempty input). -/
def ewmaLast (alpha : ℚ) : List ℚ → ℚ
  | [] => 0
  | x :: xs => xs.foldl (ewmaStep alpha) x

/-- The full series `xs.ewm(alpha=alpha, adjust=False).mean()`. -/
def ewmaSeries (alpha : ℚ) : List ℚ → List ℚ
  | [] => []
  | x :: xs => List.scanl (ewmaStep alpha) x xs

/-- `diff.where(diff > 0, 0.0)`: per-position up-moves of the closing
series; the first cell (`diff` of nothing, NaN in pandas) is replaced by
`0` by the `where`, exactly as in `RSIIndicator._run`. -/
def upMoves : List ℚ → List ℚ
  | [] => []
  | c :: cs => 0 :: List.zipWith (fun a b => if 0 < a - b then a - b else 0) cs (c :: cs)

/-- `-diff.where(diff < 0, 0.0)`: per-position down-move magnitudes. -/
def downMoves : List ℚ → List ℚ
  | [] => []
  | c :: cs => 0 :: List.zipWith (fun a b => if 0 < b - a then b - a else 0) cs (c :: cs)

/-- `RSIIndicator(close, window=14).rsi().iloc[-1]`: Wilder-smoothed
(alpha = 1/14, `min_periods = 14`) averages of up- and down-moves, mapped
to the 0-100 scale; `none` models the NaN produced when fewer than 14
cells exist (`min_periods` masking). -/
def rsiLast (closes : List ℚ) : Option ℚ :=
  if closes.length < 14 then none
  else
    let u := ewmaLast (1 / 14) (upMoves closes)
    let d := ewmaLast (1 / 14) (downMoves closes)
    some (if d = 0 then 100 else 100 - 100 / (1 + u / d))

/-- The MACD line: EMA(span 12, alpha 2/13) minus EMA(span 26, alpha 2/27)
of the closes, per position. -/
def macdLine (closes : List ℚ) : List ℚ :=
  List.zipWith (fun a b => a - b) (ewmaSeries (2 / 13) closes) (ewmaSeries (2 / 27) closes)

/-- `MACD(close, 26, 12, 9).macd_diff().iloc[-1]`: the MACD line minus its
own EMA(span 9, alpha 2/10) signal line, at the last position.  The slow
EMA's `min_periods = 26` leaves the first 25 MACD cells NaN, so the signal
EMA starts at position 25 and needs 9 further observations
(`min_periods = 9`): the last cell is NaN — `none` — iff the series is
shorter than 34. -/
def macdDiffLast (closes : List ℚ) : Option ℚ :=
  if closes.length < 34 then none
  else some ((macdLine closes).getLastD 0 - ewmaLast (2 / 10) ((macdLine closes).drop 25))

/-! ## Source adapters and the aggregator -/

/-- The outcome of each network fetch that `gather_data` performs, one
field per adapter, in the order the adapters run.  `Except.error`
carries the exception message. -/
structure SourceResults where
  eth_market : Except String (ℚ × ℚ × ℚ)
  klines : Except String (List ℚ)
  funding : Except String ℚ
  oi : Except String ℚ
  btc_cap : Except String ℚ
  total_cap : Except String ℚ
  fg_index : Except String ℤ
  macro_cal : Except String (List MacroEvent)

/-- `fetch_eth_market`: stores price, market cap and volume. -/
def fetch_eth_market (res : Except String (ℚ × ℚ × ℚ)) (s : MarketSnapshot) :
    Except String MarketSnapshot :=
  res.map fun d => { s with eth_price := d.1, market_cap := d.2.1, volume := d.2.2 }

/-- `fetch_rsi_macd`: runs the indicator calculator over the fetched
closes and stores the (possibly NaN) last cells.  `iloc[-1]` on an empty
series raises, with no preceding length check. -/
def fetch_rsi_macd (res : Except String (List ℚ)) (s : MarketSnapshot) :
    Except String MarketSnapshot := do
  let closes ← res
  if closes.isEmpty then
    Except.error "single positional indexer is out-of-bounds"
  else
    Except.ok { s with rsi := PFloat.ofOption (rsiLast closes),
                       macd := PFloat.ofOption (macdDiffLast closes) }

/-- `fetch_funding_rate`. -/
def fetch_funding_rate (res : Except String ℚ) (s : MarketSnapshot) :
    Except String MarketSnapshot :=
  res.map fun r => { s with funding_rate := r }

/-- `fetch_open_interest`. -/
def fetch_open_interest (res : Except String ℚ) (s : MarketSnapshot) :
    Except String MarketSnapshot :=
  res.map fun r => { s with open_interest := r }

/-- `fetch_btc_dominance`: two sub-fetches, then `btc / total * 100`;
Python division by a zero float raises `ZeroDivisionError`. -/
def fetch_btc_dominance (btc total : Except String ℚ) (s : MarketSnapshot) :
    Except String MarketSnapshot := do
  let b ← btc
  let t ← total
  if t = 0 then Except.error "float division by zero"
  else Except.ok { s with btc_dominance := b / t * 100 }

/-- `fetch_fear_greed`. -/
def fetch_fear_greed (res : Except String ℤ) (s : MarketSnapshot) :
    Except String MarketSnapshot :=
  res.map fun v => { s with fear_greed := v }

/-- `fetch_macro_events`: the one adapter wrapped in `try/except` — on any
failure it stores the empty list instead of raising. -/
def fetch_macro_events (res : Except String (List MacroEvent)) (s : MarketSnapshot) :
    MarketSnapshot :=
  match res with
  | Except.ok evts => { s with macro_events := evts }
  | Except.error _ => { s with macro_events := [] }

/-- The fallible prefix of `gather_data`: every adapter before the
macro-calendar one, run in source order over a fresh snapshot. -/
def gatherCore (src : SourceResults) : Except String MarketSnapshot := do
  let snap := MarketSnapshot.init
  let snap ← fetch_eth_market src.eth_market snap
  let snap ← fetch_rsi_macd src.klines snap
  let snap ← fetch_funding_rate src.funding snap
  let snap ← fetch_open_interest src.oi snap
  let snap ← fetch_btc_dominance src.btc_cap src.total_cap snap
  fetch_fear_greed src.fg_index snap

/-- `gather_data`: the full aggregator; the macro-calendar step never
fails, so it is a total post-processing of the fallible prefix. -/
def gather_data (src : SourceResults) : Except String MarketSnapshot :=
  Except.map (fetch_macro_events src.macro_cal) (gatherCore src)

/-! ## Decision engine -/

/-- The `buy` condition of `evaluate`, conjunct for conjunct. -/
def buySignal (s : MarketSnapshot) (last_oi : Option ℚ) : Bool :=
  s.rsi.gtB 60 &&
  s.macd.gtB 0 &&
  decide (3550 < s.eth_price) &&
  decide (s.btc_dominance < 59.5) &&
  decide (s.funding_rate ≤ 0) &&
  (match last_oi with
   | some p => decide (p < s.open_interest)
   | none => false) &&
  decide (60 < s.fear_greed)

/-- The `sell` condition of `evaluate`, conjunct for conjunct. -/
def sellSignal (s : MarketSnapshot) (last_oi : Option ℚ) : Bool :=
  s.rsi.ltB 40 &&
  s.macd.ltB 0 &&
  decide (s.eth_price < 3550) &&
  decide (59.5 < s.btc_dominance) &&
  decide (0 < s.funding_rate) &&
  (match last_oi with
   | some p => decide (s.open_interest < p)
   | none => false) &&
  decide (s.fear_greed < 40)

/-- `evaluate(snapshot, last_oi)`: `buy` is checked first, then `sell`,
else `None`. -/
def evaluate (s : MarketSnapshot) (last_oi : Option ℚ) : Option String :=
  if buySignal s last_oi then some "GO LONG"
  else if sellSignal s last_oi then some "SELL"
  else none

/-! ## The spec's decision rules, transcribed for comparison -/

/-- Transcribed from the spec's `LONG` rule (§4.3), conjunct for conjunct,
to be compared with the code's `buySignal`.  "previousOpenInterest is
known AND snapshot.openInterest > previousOpenInterest" is the existential
conjunct. -/
def specLongRule (s : MarketSnapshot) (last_oi : Option ℚ) : Prop :=
  s.rsi.gtB 60 = true ∧ s.macd.gtB 0 = true ∧ 3550 < s.eth_price ∧
  s.btc_dominance < 59.5 ∧ s.funding_rate ≤ 0 ∧
  (∃ p, last_oi = some p ∧ p < s.open_interest) ∧ 60 < s.fear_greed

/-- Transcribed from the spec's `SHORT` rule (§4.3), conjunct for
conjunct, to be compared with the code's `sellSignal`. -/
def specShortRule (s : MarketSnapshot) (last_oi : Option ℚ) : Prop :=
  s.rsi.ltB 40 = true ∧ s.macd.ltB 0 = true ∧ s.eth_price < 3550 ∧
  59.5 < s.btc_dominance ∧ 0 < s.funding_rate ∧
  (∃ p, last_oi = some p ∧ s.open_interest < p) ∧ s.fear_greed < 40

/-- The code's `buy` conjunction coincides with the spec's `LONG` rule. -/
lemma buySignal_iff (s : MarketSnapshot) (l : Option ℚ) :
    buySignal s l = true ↔ specLongRule s l := by
  cases l <;> simp [buySignal, specLongRule, and_assoc]

/-- The code's `sell` conjunction coincides with the spec's `SHORT` rule. -/
lemma sellSignal_iff (s : MarketSnapshot) (l : Option ℚ) :
    sellSignal s l = true ↔ specShortRule s l := by
  cases l <;> simp [sellSignal, specShortRule, and_assoc]

/-- No input satisfies both rule sets: the price thresholds
(`> 3550` vs `< 3550`) already clash. -/
lemma long_short_exclusive (s : MarketSnapshot) (l : Option ℚ) :
    ¬ (specLongRule s l ∧ specShortRule s l) := by
  rintro ⟨⟨_, _, hp, _⟩, ⟨_, _, hq, _⟩⟩
  exact absurd (hp.trans hq) (lt_irrefl _)

/-- C1: `evaluate` has exactly three outcomes — `some "GO LONG"` exactly
when the spec's seven LONG conditions hold, `some "SELL"` exactly when the
spec's seven SHORT conditions hold, and `none` exactly otherwise. -/
theorem evaluate_three_outcomes (s : MarketSnapshot) (l : Option ℚ) :
    (evaluate s l = some "GO LONG" ↔ specLongRule s l) ∧
    (evaluate s l = some "SELL" ↔ specShortRule s l) ∧
    (evaluate s l = none ↔ ¬ specLongRule s l ∧ ¬ specShortRule s l) := by
  unfold evaluate
  by_cases hb : buySignal s l = true
  · have hbs := (buySignal_iff s l).mp hb
    have hns : ¬ specShortRule s l := fun h => long_short_exclusive s l ⟨hbs, h⟩
    rw [if_pos hb]
    simp [hbs, hns]
  · have hnb : ¬ specLongRule s l := fun h => hb ((buySignal_iff s l).mpr h)
    rw [if_neg hb]
    by_cases hs : sellSignal s l = true
    · have hss := (sellSignal_iff s l).mp hs
      rw [if_pos hs]
      simp [hss, hnb]
    · have hns : ¬ specShortRule s l := fun h => hs ((sellSignal_iff s l).mpr h)
      rw [if_neg hs]
      simp [hnb, hns]

/-- C3: with an unknown previous open interest (`last_oi = None`),
`evaluate` returns `none` whatever the snapshot holds. -/
theorem evaluate_none_of_unknown_oi (s : MarketSnapshot) : evaluate s none = none := by
  simp [evaluate, buySignal, sellSignal]

/-- C7: the LONG and SHORT rule sets are mutually exclusive — the two
conjunctions are never simultaneously true. -/
theorem long_short_rules_exclusive (s : MarketSnapshot) (l : Option ℚ) :
    (buySignal s l && sellSignal s l) = false := by
  cases hb : buySignal s l
  · simp
  · cases hs : sellSignal s l
    · simp
    · exact absurd ⟨(buySignal_iff s l).mp hb, (sellSignal_iff s l).mp hs⟩
        (long_short_exclusive s l)

/-- C9: `evaluate` is deterministic and reads nothing but its two inputs —
its result depends only on the seven snapshot fields the rule mentions
(two snapshots agreeing on those fields yield the identical result, for
the same previous open interest). -/
theorem evaluate_reads_only_inputs (s t : MarketSnapshot) (l : Option ℚ)
    (h1 : s.rsi = t.rsi) (h2 : s.macd = t.macd) (h3 : s.eth_price = t.eth_price)
    (h4 : s.btc_dominance = t.btc_dominance) (h5 : s.funding_rate = t.funding_rate)
    (h6 : s.open_interest = t.open_interest) (h7 : s.fear_greed = t.fear_greed) :
    evaluate s l = evaluate t l := by
  simp only [evaluate, buySignal, sellSignal, h1, h2, h3, h4, h5, h6, h7]

/-- Witness for C9 at concrete inputs: two snapshots differing only in
fields the rule never reads evaluate identically. -/
theorem evaluate_reads_only_inputs_witness :
    evaluate MarketSnapshot.init (some 1) =
      evaluate { MarketSnapshot.init with market_cap := 5, volume := 7, macro_events := [[("impact", "high")]] } (some 1) :=
  evaluate_reads_only_inputs _ _ _ rfl rfl rfl rfl rfl rfl rfl

/-- C10: `evaluate` is total on NaN indicator cells — a NaN `rsi` or
`macd` falsifies every threshold comparison, so the result is `none`. -/
theorem evaluate_none_of_nan (s : MarketSnapshot) (l : Option ℚ)
    (h : s.rsi = PFloat.nan ∨ s.macd = PFloat.nan) : evaluate s l = none := by
  rcases h with h | h <;> simp [evaluate, buySignal, sellSignal, h, PFloat.gtB, PFloat.ltB]

/-- Witness for C10: a snapshot whose `rsi` cell is NaN yields no signal. -/
theorem evaluate_none_of_nan_witness :
    evaluate { MarketSnapshot.init with rsi := PFloat.nan } none = none :=
  evaluate_none_of_nan _ none (Or.inl rfl)

/-! ## Monitor loop -/

/-- One observable output line of the loop: a printed signal string, the
idle heartbeat ("I'm still checking"), or a cycle-level diagnostic
("Error: ..." with the exception text). -/
inductive Line where
  | signal : String → Line
  | heartbeat : Line
  | diag : String → Line
deriving DecidableEq

/-- The mutable state `main` carries across cycles: `last_oi` and
`last_message`. -/
structure LoopState where
  last_oi : Option ℚ
  last_message : ℚ
deriving DecidableEq

/-- `main`'s state before the first cycle: `last_oi = None`,
`last_message = 0.0`. -/
def initState : LoopState := ⟨none, 0⟩

/-- The `try/except` body of one `while True` iteration of `main`, given
the instant `now` at which `time.time()` is read and the outcome of
`gather_data()`: the successor state and the lines printed.  On success
`last_oi` is always overwritten with the snapshot's open interest; on a
caught exception the state is returned untouched. -/
def cycleBody (now : ℚ) (res : Except String MarketSnapshot) (st : LoopState) :
    LoopState × List Line :=
  match res with
  | Except.error exc => (st, [Line.diag exc])
  | Except.ok snap =>
    match evaluate snap st.last_oi with
    | some sig => (⟨some snap.open_interest, now⟩, [Line.signal sig])
    | none =>
      if 3600 ≤ now - st.last_message then
        (⟨some snap.open_interest, now⟩, [Line.heartbeat])
      else
        (⟨some snap.open_interest, st.last_message⟩, [])

/-- The outcome of one full loop iteration: new state, printed lines,
whether the loop goes on (`run_forever`), and the sleep performed. -/
structure CycleOutcome where
  state : LoopState
  emitted : List Line
  continues : Bool
  sleep : Option ℚ
deriving DecidableEq

/-- One full `while True` iteration: the guarded body, then
`if not run_forever: break` and `time.sleep(300)`. -/
def cycleStep (run_forever : Bool) (now : ℚ) (src : SourceResults) (st : LoopState) :
    CycleOutcome :=
  let r := cycleBody now (gather_data src) st
  ⟨r.1, r.2, run_forever, if run_forever then some 300 else none⟩

/-- C2: when `gather_data` raises, the iteration prints exactly one
diagnostic line, keeps the cycle state — in particular `last_oi` — exactly
as it was, does not stop the loop, and still sleeps the standard 300 units
before the next cycle. -/
theorem cycle_isolates_aggregator_failure (now : ℚ) (src : SourceResults)
    (st : LoopState) (e : String) (h : gather_data src = Except.error e) :
    cycleStep true now src st = ⟨st, [Line.diag e], true, some 300⟩ := by
  simp [cycleStep, cycleBody, h]

/-- A source assignment whose very first adapter fails. -/
def srcDown : SourceResults :=
  ⟨Except.error "connection timed out", Except.ok [], Except.ok 0, Except.ok 0,
   Except.ok 0, Except.ok 1, Except.ok 0, Except.ok []⟩

/-- Witness for C2: a concrete failing cycle leaves the concrete state
untouched, prints one diagnostic, continues and sleeps. -/
theorem cycle_isolates_aggregator_failure_witness :
    cycleStep true 12345 srcDown initState =
      ⟨initState, [Line.diag "connection timed out"], true, some 300⟩ :=
  cycle_isolates_aggregator_failure 12345 srcDown initState "connection timed out" rfl

/-- C6: a macro-calendar failure never surfaces — `gather_data` returns
exactly what a successful calendar fetch would have produced, with
`macro_events` replaced by the empty list; failures of the other adapters
propagate identically in both worlds. -/
theorem gather_data_macro_failure (src : SourceResults) (e : String)
    (evts : List MacroEvent) :
    gather_data { src with macro_cal := Except.error e } =
      Except.map (fun s => { s with macro_events := [] })
        (gather_data { src with macro_cal := Except.ok evts }) := by
  have hcore : gatherCore { src with macro_cal := Except.error e } =
      gatherCore { src with macro_cal := Except.ok evts } := rfl
  cases h : gatherCore { src with macro_cal := Except.ok evts } <;>
    simp [gather_data, hcore, h, fetch_macro_events, Except.map]

/-! ## Idle-cycle throttling -/

/-- A run of consecutive successful loop iterations; the cycle at instant
`now` consumes snapshot `snap`.  Returns the final state and every line
printed, in order. -/
def runIdle : LoopState → List (ℚ × MarketSnapshot) → LoopState × List Line
  | st, [] => (st, [])
  | st, (now, snap) :: rest =>
    let r := cycleBody now (Except.ok snap) st
    let rr := runIdle r.1 rest
    (rr.1, r.2 ++ rr.2)

/-- Every cycle of the run produces no signal, with respect to the state
as it evolves along the run. -/
def noSignalRun : LoopState → List (ℚ × MarketSnapshot) → Bool
  | _, [] => true
  | st, (now, snap) :: rest =>
    decide (evaluate snap st.last_oi = none) &&
      noSignalRun (cycleBody now (Except.ok snap) st).1 rest

/-- Number of heartbeat lines in an output trace. -/
def countHB (out : List Line) : Nat := out.count Line.heartbeat

/-- On a no-signal cycle the body either emits the heartbeat and resets
the timestamp, or emits nothing and keeps it, decided by the
`>= 3600` test. -/
lemma cycleBody_no_signal (now : ℚ) (snap : MarketSnapshot) (st : LoopState)
    (h : evaluate snap st.last_oi = none) :
    cycleBody now (Except.ok snap) st =
      if 3600 ≤ now - st.last_message then
        (⟨some snap.open_interest, now⟩, [Line.heartbeat])
      else (⟨some snap.open_interest, st.last_message⟩, []) := by
  simp [cycleBody, h]

/-- A no-signal run whose every instant stays within 3600 units of the
last output emits nothing and preserves the timestamp. -/
lemma runIdle_quiet (cycles : List (ℚ × MarketSnapshot)) :
    ∀ st, noSignalRun st cycles = true →
      (∀ p ∈ cycles, p.1 - st.last_message < 3600) →
      countHB (runIdle st cycles).2 = 0 ∧
        (runIdle st cycles).1.last_message = st.last_message := by
  induction cycles with
  | nil => intro st _ _; simp [runIdle, countHB]
  | cons c rest ih =>
    obtain ⟨now, snap⟩ := c
    intro st hns hlt
    rw [noSignalRun] at hns
    rw [Bool.and_eq_true, decide_eq_true_eq] at hns
    have hnow : now - st.last_message < 3600 := hlt (now, snap) (by simp)
    have hbody := cycleBody_no_signal now snap st hns.1
    rw [if_neg (by linarith)] at hbody
    have h2 := hns.2
    rw [hbody] at h2
    have hrest := ih ⟨some snap.open_interest, st.last_message⟩ h2
      (fun p hp => hlt p (by simp [hp]))
    rw [runIdle, hbody]
    simpa [countHB] using hrest

/-- A no-signal run one of whose instants reaches 3600 units past the
last output emits at least one heartbeat. -/
lemma runIdle_fires (cycles : List (ℚ × MarketSnapshot)) :
    ∀ st, noSignalRun st cycles = true →
      (∃ p ∈ cycles, 3600 ≤ p.1 - st.last_message) →
      1 ≤ countHB (runIdle st cycles).2 := by
  induction cycles with
  | nil => intro st _ h; simp at h
  | cons c rest ih =>
    obtain ⟨now, snap⟩ := c
    intro st hns hex
    rw [noSignalRun] at hns
    rw [Bool.and_eq_true, decide_eq_true_eq] at hns
    have hbody := cycleBody_no_signal now snap st hns.1
    by_cases hfire : 3600 ≤ now - st.last_message
    · rw [if_pos hfire] at hbody
      rw [runIdle, hbody]
      simp [countHB]
    · rw [if_neg hfire] at hbody
      obtain ⟨p, hp, hple⟩ := hex
      have h2 := hns.2
      rw [hbody] at h2
      rcases List.mem_cons.mp hp with hp0 | hp1
      · rw [hp0] at hple
        exact absurd hple hfire
      · have hrest := ih ⟨some snap.open_interest, st.last_message⟩ h2 ⟨p, hp1, hple⟩
        rw [runIdle, hbody]
        simpa [countHB] using hrest

/-- Over a no-signal run whose instants all lie within 3600 units of one
another, at most one heartbeat is printed. -/
lemma runIdle_at_most_one (cycles : List (ℚ × MarketSnapshot)) :
    ∀ st, noSignalRun st cycles = true →
      (∀ p ∈ cycles, ∀ q ∈ cycles, p.1 - q.1 < 3600) →
      countHB (runIdle st cycles).2 ≤ 1 := by
  induction cycles with
  | nil => intro st _ _; simp [runIdle, countHB]
  | cons c rest ih =>
    obtain ⟨now, snap⟩ := c
    intro st hns hwin
    rw [noSignalRun] at hns
    rw [Bool.and_eq_true, decide_eq_true_eq] at hns
    have hbody := cycleBody_no_signal now snap st hns.1
    by_cases hfire : 3600 ≤ now - st.last_message
    · rw [if_pos hfire] at hbody
      have h2 := hns.2
      rw [hbody] at h2
      have hrest := runIdle_quiet rest ⟨some snap.open_interest, now⟩ h2
        (fun p hp => hwin p (by simp [hp]) (now, snap) (by simp))
      rw [runIdle, hbody]
      simp [countHB] at hrest ⊢
      omega
    · rw [if_neg hfire] at hbody
      have h2 := hns.2
      rw [hbody] at h2
      have hrest := ih ⟨some snap.open_interest, st.last_message⟩ h2
        (fun p hp q hq => hwin p (by simp [hp]) q (by simp [hq]))
      rw [runIdle, hbody]
      simpa [countHB] using hrest

/-- C5 counterexample: at exactly 3600 elapsed units — not strictly more —
the code already emits the heartbeat (the source tests
`time.time() - last_message >= 3600`). -/
theorem heartbeat_at_exact_interval :
    (cycleBody 3600 (Except.ok MarketSnapshot.init) initState).2 = [Line.heartbeat] ∧
    ¬ (3600 - initState.last_message > 3600) := by
  constructor
  · rw [cycleBody_no_signal 3600 MarketSnapshot.init initState
      (evaluate_none_of_unknown_oi MarketSnapshot.init)]
    rw [if_pos (by norm_num [initState])]
  · norm_num [initState]

/-- C5 (amended): on a no-signal cycle the heartbeat is emitted iff at
least 3600 units have elapsed since the last output, and emitting resets
the timestamp; consequently a no-signal run whose instants pairwise differ
by less than the idle interval prints at most one heartbeat, and prints
none at all iff no instant reaches 3600 units past the last output. -/
theorem heartbeat_throttle :
    (∀ now snap st, evaluate snap st.last_oi = none →
      (((cycleBody now (Except.ok snap) st).2 = [Line.heartbeat] ↔
          3600 ≤ now - st.last_message) ∧
        ((cycleBody now (Except.ok snap) st).2 = [] ↔
          now - st.last_message < 3600) ∧
        (3600 ≤ now - st.last_message →
          (cycleBody now (Except.ok snap) st).1.last_message = now))) ∧
    (∀ st cycles, noSignalRun st cycles = true →
      (∀ p ∈ cycles, ∀ q ∈ cycles, p.1 - q.1 < 3600) →
      countHB (runIdle st cycles).2 ≤ 1) ∧
    (∀ st cycles, noSignalRun st cycles = true →
      (countHB (runIdle st cycles).2 = 0 ↔
        ∀ p ∈ cycles, p.1 - st.last_message < 3600)) := by
  refine ⟨?_, ?_, ?_⟩
  · intro now snap st h
    rw [cycleBody_no_signal now snap st h]
    by_cases hfire : 3600 ≤ now - st.last_message
    · rw [if_pos hfire]
      simp [hfire, not_lt.mpr hfire]
    · rw [if_neg hfire]
      simp [hfire, not_le.mp hfire]
  · exact fun st cycles h1 h2 => runIdle_at_most_one cycles st h1 h2
  · intro st cycles h1
    constructor
    · intro h0 p hp
      by_contra hge
      have := runIdle_fires cycles st h1 ⟨p, hp, not_lt.mp hge⟩
      omega
    · intro hall
      exact (runIdle_quiet cycles st h1 hall).1

/-- Witness for C5 at a concrete run: two quiet cycles 300 units apart,
starting from the initial state, print at most one heartbeat. -/
theorem heartbeat_throttle_witness :
    countHB (runIdle initState [(300, MarketSnapshot.init), (600, MarketSnapshot.init)]).2 ≤ 1 :=
  heartbeat_throttle.2.1 initState [(300, MarketSnapshot.init), (600, MarketSnapshot.init)]
    (by norm_num [noSignalRun, cycleBody, evaluate, buySignal, sellSignal,
          PFloat.gtB, PFloat.ltB, initState, MarketSnapshot.init])
    (by intro p hp q hq
        fin_cases hp <;> fin_cases hq <;> norm_num)

/-! ## Facts about the indicator computation -/

/-- The EWMA fold keeps nonnegativity (weights `alpha` and `1 - alpha`
both nonnegative). -/
lemma foldl_ewmaStep_nonneg (alpha : ℚ) (h0 : 0 ≤ alpha) (h1 : alpha ≤ 1) :
    ∀ (xs : List ℚ) (a : ℚ), 0 ≤ a → (∀ x ∈ xs, 0 ≤ x) →
      0 ≤ xs.foldl (ewmaStep alpha) a := by
  intro xs
  induction xs with
  | nil => intro a ha _; simpa using ha
  | cons x xs ih =>
    intro a ha hx
    rw [List.foldl_cons]
    refine ih (ewmaStep alpha a x) ?_ (fun y hy => hx y (by simp [hy]))
    have hc1 := mul_nonneg (by linarith : (0:ℚ) ≤ 1 - alpha) ha
    have hc2 := mul_nonneg h0 (hx x (by simp))
    unfold ewmaStep
    linarith

/-- The EWMA fold of a strictly positive series from a nonnegative start
is strictly positive (for `0 < alpha ≤ 1`). -/
lemma foldl_ewmaStep_pos (alpha : ℚ) (h0 : 0 < alpha) (h1 : alpha ≤ 1) :
    ∀ (xs : List ℚ) (a : ℚ), 0 ≤ a → (∀ x ∈ xs, 0 < x) → xs ≠ [] →
      0 < xs.foldl (ewmaStep alpha) a := by
  intro xs
  induction xs with
  | nil => intro a _ _ h; exact absurd rfl h
  | cons x xs ih =>
    intro a ha hx _
    rw [List.foldl_cons]
    have hstep : 0 < ewmaStep alpha a x := by
      have hc1 := mul_nonneg (by linarith : (0:ℚ) ≤ 1 - alpha) ha
      have hc2 := mul_pos h0 (hx x (by simp))
      unfold ewmaStep
      linarith
    cases xs with
    | nil => simpa using hstep
    | cons y ys =>
      exact ih (ewmaStep alpha a x) (le_of_lt hstep)
        (fun z hz => hx z (by simp [hz])) (by simp)

/-- The EWMA fold of an all-zero series from zero stays zero. -/
lemma foldl_ewmaStep_zero (alpha : ℚ) :
    ∀ xs : List ℚ, (∀ x ∈ xs, x = 0) → xs.foldl (ewmaStep alpha) 0 = 0 := by
  intro xs
  induction xs with
  | nil => simp
  | cons x xs ih =>
    intro hx
    rw [List.foldl_cons]
    have hx0 : ewmaStep alpha 0 x = 0 := by
      unfold ewmaStep
      rw [hx x (by simp)]
      ring
    rw [hx0]
    exact ih (fun y hy => hx y (by simp [hy]))

/-- Membership in a `zipWith` of a pointwise-nonnegative function. -/
lemma mem_zipWith_nonneg (f : ℚ → ℚ → ℚ) (hf : ∀ a b, 0 ≤ f a b) :
    ∀ (as bs : List ℚ), ∀ x ∈ List.zipWith f as bs, 0 ≤ x := by
  intro as
  induction as with
  | nil => intro bs x hx; simp at hx
  | cons a as ih =>
    intro bs x hx
    cases bs with
    | nil => simp at hx
    | cons b bs =>
      rw [List.zipWith_cons_cons] at hx
      rcases List.mem_cons.mp hx with h | h
      · rw [h]; exact hf a b
      · exact ih bs x h

/-- Consecutive up-moves of a strictly increasing series are positive. -/
lemma zip_up_pos : ∀ (c : ℚ) (cs : List ℚ), List.Chain' (· < ·) (c :: cs) →
    ∀ x ∈ List.zipWith (fun a b => if 0 < a - b then a - b else 0) cs (c :: cs), 0 < x := by
  intro c cs
  induction cs generalizing c with
  | nil => intro _ x hx; simp at hx
  | cons d ds ih =>
    intro hch x hx
    rw [List.zipWith_cons_cons] at hx
    have hcd : c < d := (List.chain'_cons.mp hch).1
    rcases List.mem_cons.mp hx with h | h
    · rw [h, if_pos (by linarith)]
      linarith
    · exact ih d (List.chain'_cons.mp hch).2 x h

/-- Consecutive down-moves of a strictly increasing series are zero. -/
lemma zip_down_zero : ∀ (c : ℚ) (cs : List ℚ), List.Chain' (· < ·) (c :: cs) →
    ∀ x ∈ List.zipWith (fun a b => if 0 < b - a then b - a else 0) cs (c :: cs), x = 0 := by
  intro c cs
  induction cs generalizing c with
  | nil => intro _ x hx; simp at hx
  | cons d ds ih =>
    intro hch x hx
    rw [List.zipWith_cons_cons] at hx
    have hcd : c < d := (List.chain'_cons.mp hch).1
    rcases List.mem_cons.mp hx with h | h
    · rw [h, if_neg (by linarith)]
    · exact ih d (List.chain'_cons.mp hch).2 x h

/-- Consecutive down-moves of a strictly decreasing series are positive. -/
lemma zip_down_pos : ∀ (c : ℚ) (cs : List ℚ), List.Chain' (· > ·) (c :: cs) →
    ∀ x ∈ List.zipWith (fun a b => if 0 < b - a then b - a else 0) cs (c :: cs), 0 < x := by
  intro c cs
  induction cs generalizing c with
  | nil => intro _ x hx; simp at hx
  | cons d ds ih =>
    intro hch x hx
    rw [List.zipWith_cons_cons] at hx
    have hcd : c > d := (List.chain'_cons.mp hch).1
    rcases List.mem_cons.mp hx with h | h
    · rw [h, if_pos (by linarith)]
      linarith
    · exact ih d (List.chain'_cons.mp hch).2 x h

/-- Consecutive up-moves of a strictly decreasing series are zero. -/
lemma zip_up_zero : ∀ (c : ℚ) (cs : List ℚ), List.Chain' (· > ·) (c :: cs) →
    ∀ x ∈ List.zipWith (fun a b => if 0 < a - b then a - b else 0) cs (c :: cs), x = 0 := by
  intro c cs
  induction cs generalizing c with
  | nil => intro _ x hx; simp at hx
  | cons d ds ih =>
    intro hch x hx
    rw [List.zipWith_cons_cons] at hx
    have hcd : c > d := (List.chain'_cons.mp hch).1
    rcases List.mem_cons.mp hx with h | h
    · rw [h, if_neg (by linarith)]
    · exact ih d (List.chain'_cons.mp hch).2 x h

/-- `ewmaLast` on a cons is the fold over the tail started at the head. -/
lemma ewmaLast_cons (alpha x : ℚ) (xs : List ℚ) :
    ewmaLast alpha (x :: xs) = xs.foldl (ewmaStep alpha) x := rfl

/-- `rsiLast` on a series of at least 14 cells, with the `min_periods`
guard discharged. -/
lemma rsiLast_of_long (closes : List ℚ) (h : ¬ closes.length < 14) :
    rsiLast closes =
      some (if ewmaLast (1 / 14) (downMoves closes) = 0 then 100
            else 100 - 100 / (1 + ewmaLast (1 / 14) (upMoves closes) /
              ewmaLast (1 / 14) (downMoves closes))) := by
  unfold rsiLast
  rw [if_neg h]

/-- C4 counterexample: a 25-point series — shorter than 26 — makes the
indicator step return a snapshot, not raise an error. -/
theorem fetch_rsi_macd_no_error_below_26 :
    (fetch_rsi_macd (Except.ok (List.replicate 25 (1:ℚ))) MarketSnapshot.init).isOk = true := by
  have h25 : (List.replicate 25 (1:ℚ)).isEmpty = false := by simp
  simp [fetch_rsi_macd, h25, Except.isOk, Except.toBool, bind, Except.bind]

/-- C4 (amended): a nonempty closing series shorter than 26 points does
not raise `InsufficientData`; the step succeeds and stores a NaN MACD
differential (and a NaN RSI as well when the series is shorter than 14
points). -/
theorem fetch_rsi_macd_short_series (closes : List ℚ) (s : MarketSnapshot)
    (h1 : closes ≠ []) (h2 : closes.length < 26) :
    ∃ s', fetch_rsi_macd (Except.ok closes) s = Except.ok s' ∧
      s'.macd = PFloat.nan ∧ (closes.length < 14 → s'.rsi = PFloat.nan) := by
  have hne : closes.isEmpty = false := by
    cases closes with
    | nil => exact absurd rfl h1
    | cons c cs => rfl
  refine ⟨{ s with rsi := PFloat.ofOption (rsiLast closes), macd := PFloat.ofOption (macdDiffLast closes) }, ?_, ?_, ?_⟩
  · simp [fetch_rsi_macd, hne, bind, Except.bind]
  · have : macdDiffLast closes = none := by
      unfold macdDiffLast
      rw [if_pos (by omega)]
    simp [this, PFloat.ofOption]
  · intro h14
    have : rsiLast closes = none := by
      unfold rsiLast
      rw [if_pos h14]
    simp [this, PFloat.ofOption]

/-- Witness for the amended C4 at the concrete 25-point series. -/
theorem fetch_rsi_macd_short_series_witness :
    ∃ s', fetch_rsi_macd (Except.ok (List.replicate 25 (1:ℚ))) MarketSnapshot.init =
        Except.ok s' ∧ s'.macd = PFloat.nan ∧
        ((List.replicate 25 (1:ℚ)).length < 14 → s'.rsi = PFloat.nan) :=
  fetch_rsi_macd_short_series (List.replicate 25 (1:ℚ)) MarketSnapshot.init
    (by simp) (by simp)

/-- C8: for a closing series of at least 26 points the RSI value at the
last position is an actual number in [0, 100]; a strictly increasing
series yields exactly 100 and a strictly decreasing one exactly 0. -/
theorem rsi_bounds_and_extremes (closes : List ℚ) (h : 26 ≤ closes.length) :
    (∃ v, rsiLast closes = some v ∧ 0 ≤ v ∧ v ≤ 100) ∧
    (List.Chain' (· < ·) closes → rsiLast closes = some 100) ∧
    (List.Chain' (· > ·) closes → rsiLast closes = some 0) := by
  obtain ⟨c, cs, rfl⟩ : ∃ c cs, closes = c :: cs := by
    cases closes with
    | nil => simp at h
    | cons c cs => exact ⟨c, cs, rfl⟩
  have hlen : ¬ (c :: cs).length < 14 := by
    simp only [List.length_cons] at h ⊢
    omega
  have hcs : cs ≠ [] := by
    cases cs with
    | nil => simp at h
    | cons d ds => simp
  have hu_def : ewmaLast (1 / 14) (upMoves (c :: cs)) =
      (List.zipWith (fun a b => if 0 < a - b then a - b else 0) cs (c :: cs)).foldl
        (ewmaStep (1 / 14)) 0 := rfl
  have hd_def : ewmaLast (1 / 14) (downMoves (c :: cs)) =
      (List.zipWith (fun a b => if 0 < b - a then b - a else 0) cs (c :: cs)).foldl
        (ewmaStep (1 / 14)) 0 := rfl
  have hu0 : 0 ≤ ewmaLast (1 / 14) (upMoves (c :: cs)) := by
    rw [hu_def]
    exact foldl_ewmaStep_nonneg (1 / 14) (by norm_num) (by norm_num) _ 0 le_rfl
      (mem_zipWith_nonneg _ (fun a b => by split_ifs with hab <;> linarith) cs (c :: cs))
  have hd0 : 0 ≤ ewmaLast (1 / 14) (downMoves (c :: cs)) := by
    rw [hd_def]
    exact foldl_ewmaStep_nonneg (1 / 14) (by norm_num) (by norm_num) _ 0 le_rfl
      (mem_zipWith_nonneg _ (fun a b => by split_ifs with hab <;> linarith) cs (c :: cs))
  rw [rsiLast_of_long _ hlen]
  set u := ewmaLast (1 / 14) (upMoves (c :: cs)) with hu_eq
  set d := ewmaLast (1 / 14) (downMoves (c :: cs)) with hd_eq
  refine ⟨?_, ?_, ?_⟩
  · by_cases hd : d = 0
    · exact ⟨100, by rw [if_pos hd], by norm_num, by norm_num⟩
    · have hdpos : 0 < d := lt_of_le_of_ne hd0 (Ne.symm hd)
      have hq : (0:ℚ) ≤ u / d := div_nonneg hu0 hd0
      have hposd : (0:ℚ) < 100 / (1 + u / d) := div_pos (by norm_num) (by linarith)
      have hled : 100 / (1 + u / d) ≤ 100 := div_le_self (by norm_num) (by linarith)
      exact ⟨100 - 100 / (1 + u / d), by rw [if_neg hd], by linarith, by linarith⟩
  · intro hch
    have hdz : d = 0 := by
      rw [hd_def]
      exact foldl_ewmaStep_zero _ _ (zip_down_zero c cs hch)
    rw [if_pos hdz]
  · intro hch
    have huz : u = 0 := by
      rw [hu_def]
      exact foldl_ewmaStep_zero _ _ (zip_up_zero c cs hch)
    have hdpos : 0 < d := by
      rw [hd_def]
      refine foldl_ewmaStep_pos (1 / 14) (by norm_num) (by norm_num) _ 0 le_rfl
        (zip_down_pos c cs hch) ?_
      cases cs with
      | nil => exact absurd rfl hcs
      | cons e es => simp
    rw [if_neg (by linarith), huz]
    norm_num

/-- Witness for C8: the strictly increasing 26-point series 1..26 has
RSI exactly 100 at its last position. -/
theorem rsi_bounds_and_extremes_witness :
    rsiLast [1, 2, 3, 4, 5, 6, 7, 8, 9, 10, 11, 12, 13, 14, 15, 16, 17, 18,
      19, 20, 21, 22, 23, 24, 25, 26] = some 100 :=
  (rsi_bounds_and_extremes _ (by decide)).2.1
    (by norm_num [List.chain'_cons, List.chain'_singleton])
